import Mathlib

/-!
Verification development for `src/mcp_server_mysql.py`.

Python dicts (which preserve insertion order) are modelled as association
lists `List (String × β)`; the `list(d.values())` projection is
`List.map Prod.snd`.  The per-row "create entry if the key is absent, then
append to its list" pattern shared by the three grouping loops of
`describe_indexes_and_foreign_keys` is captured once as `dictStep`.
Driver interaction (cursor execution, commit, close) is modelled by
explicit data: each tool takes the driver's behaviour as an
`Except`-valued input and returns its result together with a `ConnState`
recording the commit/close effects of the `try/finally` block.
-/

/-- Python `k in m` / `m[k]` on an insertion-ordered dict modelled as an
association list: the first binding for `k` (there is at most one) wins. -/
def alistLookup (k : String) : List (String × β) → Option β
  | [] => none
  | p :: t => if p.1 = k then some p.2 else alistLookup k t

/-- Python `m[k] = f(m[k])`-style in-place update: the binding for `k` is
replaced by its image under `f`, the position and every other binding are
kept. -/
def alistModify (k : String) (f : β → β) : List (String × β) → List (String × β)
  | [] => []
  | p :: t => if p.1 = k then (p.1, f p.2) :: t else p :: alistModify k f t

/-- One iteration of any of the three grouping loops of
`describe_indexes_and_foreign_keys` (lines 130-143, 150-165, 166-180 of
`src/mcp_server_mysql.py`): if the row's key is not yet in the dict, bind
it to a fresh descriptor built from the row (`fnew`); then update the
descriptor at the key with the row (`fupd`, which appends one column
entry). -/
def dictStep (fkey : ρ → String) (fnew : ρ → β) (fupd : ρ → β → β)
    (m : List (String × β)) (r : ρ) : List (String × β) :=
  let k := fkey r
  let m2 := if (alistLookup k m).isSome then m else m ++ [(k, fnew r)]
  alistModify k (fupd r) m2

/-- A whole grouping loop: fold `dictStep` over the rows starting from the
empty dict. -/
def dictFold (fkey : ρ → String) (fnew : ρ → β) (fupd : ρ → β → β)
    (rows : List ρ) : List (String × β) :=
  rows.foldl (dictStep fkey fnew fupd) []

/-- One row of the `INFORMATION_SCHEMA.STATISTICS` query (lines 98-107):
`INDEX_NAME` (nullable), `NON_UNIQUE = 0 AS IS_PRIMARY_OR_UNIQUE`,
`SEQ_IN_INDEX`, `COLUMN_NAME`. -/
structure IdxRow where
  index_name : Option String
  is_primary_or_unique : Bool
  seq_in_index : Nat
  column_name : String
deriving DecidableEq, Repr

/-- Python `row["INDEX_NAME"] or "(unnamed)"` (line 131): both NULL and the
empty string are falsy and fall back to the placeholder. -/
def idxKey (r : IdxRow) : String :=
  match r.index_name with
  | none => "(unnamed)"
  | some s => if s = "" then "(unnamed)" else s

/-- One element of an index descriptor's `columns` list (lines 138-143). -/
structure IndexColumn where
  name : String
  seq_in_index : Nat
deriving DecidableEq, Repr

/-- The value stored in the `indexes` dict (lines 133-137). -/
structure IndexDescriptor where
  name : String
  is_primary_or_unique : Bool
  columns : List IndexColumn
deriving DecidableEq, Repr

/-- The column entry appended for an index row (lines 139-142). -/
def idxCol (r : IdxRow) : IndexColumn :=
  { name := r.column_name, seq_in_index := r.seq_in_index }

/-- The fresh descriptor created at lines 133-137. -/
def newIndexDescriptor (r : IdxRow) : IndexDescriptor :=
  { name := idxKey r, is_primary_or_unique := r.is_primary_or_unique, columns := [] }

/-- The `indexes` dict after the loop at lines 129-143. -/
def foldIndexes (rows : List IdxRow) : List (String × IndexDescriptor) :=
  dictFold idxKey newIndexDescriptor
    (fun r d => { d with columns := d.columns ++ [idxCol r] }) rows

/-- One row of the `KEY_COLUMN_USAGE` query (lines 109-123); the query
filters on `REFERENCED_TABLE_NAME IS NOT NULL`, so the referenced fields
are present. -/
structure FkRow where
  constraint_name : String
  table_schema : String
  table_name : String
  column_name : String
  referenced_table_schema : String
  referenced_table_name : String
  referenced_column_name : String
deriving DecidableEq, Repr

/-- One element of a foreign-key descriptor's `columns` list
(lines 160-165 and 175-180). -/
structure FkColumnEntry where
  column : String
  references : String
deriving DecidableEq, Repr

/-- The column entry appended for a key-usage row. -/
def fkEntry (r : FkRow) : FkColumnEntry :=
  { column := r.column_name, references := r.referenced_column_name }

/-- The value stored in the `outbound` dict (lines 154-159). -/
structure OutboundFk where
  name : String
  target_schema : String
  target_table : String
  columns : List FkColumnEntry
deriving DecidableEq, Repr

/-- The value stored in the `inbound` dict (lines 169-174). -/
structure InboundFk where
  name : String
  source_schema : String
  source_table : String
  columns : List FkColumnEntry
deriving DecidableEq, Repr

/-- The composite inbound grouping key of line 167:
`f"{row['REFERENCED_TABLE_SCHEMA']}.{row['REFERENCED_TABLE_NAME']}.{fk_name}"`. -/
def inbKey (r : FkRow) : String :=
  r.referenced_table_schema ++ "." ++ r.referenced_table_name ++ "." ++ r.constraint_name

/-- The fresh outbound descriptor created at lines 154-159. -/
def newOutboundFk (r : FkRow) : OutboundFk :=
  { name := r.constraint_name, target_schema := r.referenced_table_schema,
    target_table := r.referenced_table_name, columns := [] }

/-- The fresh inbound descriptor created at lines 169-174. -/
def newInboundFk (r : FkRow) : InboundFk :=
  { name := r.constraint_name, source_schema := r.table_schema,
    source_table := r.table_name, columns := [] }

/-- The outbound half of one iteration of the loop at lines 150-180. -/
def outboundStep (m : List (String × OutboundFk)) (r : FkRow) :
    List (String × OutboundFk) :=
  dictStep (fun r => r.constraint_name) newOutboundFk
    (fun r d => { d with columns := d.columns ++ [fkEntry r] }) m r

/-- The inbound half of one iteration of the loop at lines 150-180. -/
def inboundStep (m : List (String × InboundFk)) (r : FkRow) :
    List (String × InboundFk) :=
  dictStep inbKey newInboundFk
    (fun r d => { d with columns := d.columns ++ [fkEntry r] }) m r

/-- The loop at lines 150-180 builds the `outbound` and `inbound` dicts in
one pass over the key-usage rows; the two updates of one iteration touch
distinct dicts and commute. -/
def foldFks (rows : List FkRow) :
    List (String × OutboundFk) × List (String × InboundFk) :=
  rows.foldl (fun acc r => (outboundStep acc.1 r, inboundStep acc.2 r)) ([], [])

/-- Result value of `describe_indexes_and_foreign_keys` (lines 182-186):
the three dicts projected to their values in insertion order. -/
structure IfkResult where
  indexes : List IndexDescriptor
  foreign_keys_outbound : List OutboundFk
  foreign_keys_inbound : List InboundFk
deriving DecidableEq, Repr

/-- Pure core of `describe_indexes_and_foreign_keys`, from the two catalog
row sets to the returned value (lines 125-186). -/
def describe_ifk_rows (idx_rows : List IdxRow) (fk_rows : List FkRow) : IfkResult :=
  { indexes := (foldIndexes idx_rows).map Prod.snd,
    foreign_keys_outbound := (foldFks fk_rows).1.map Prod.snd,
    foreign_keys_inbound := (foldFks fk_rows).2.map Prod.snd }

/-- A database value as delivered by the driver; `run_query` passes values
through untouched, so only their identity matters. -/
inductive DbValue where
  | nullV : DbValue
  | intV : Int → DbValue
  | strV : String → DbValue
deriving DecidableEq, Repr

/-- A row of a `dictionary=True` cursor: a mapping from column name to
value. -/
def RowDict := List (String × DbValue)
deriving instance DecidableEq, Repr for RowDict

/-- One entry of `cur.description`; `col[0]` is the column name, the rest
of the DB-API tuple is summarised by `type_code` and never read by the
program. -/
structure ColDesc where
  name : String
  type_code : Nat
deriving DecidableEq, Repr

/-- Cursor state after `cur.execute(sql)` succeeds: `description` is NULL
for statements without a result-set shape, `rows` is what `fetchall()`
would deliver, `rowcount` the driver-reported affected-row count. -/
structure Cursor where
  description : Option (List ColDesc)
  rows : List RowDict
  rowcount : Int
deriving DecidableEq, Repr

/-- Python truthiness of `cur.description` (line 52): `None` and the empty
sequence are falsy. -/
def descTruthy : Option (List ColDesc) → Bool
  | none => false
  | some l => !l.isEmpty

/-- Python `[col[0] for col in cur.description]` (line 54). -/
def columnNames : Option (List ColDesc) → List String
  | none => []
  | some l => l.map ColDesc.name

/-- The two result shapes of `run_query` (lines 55 and 57). -/
inductive QueryValue where
  | resultRows : List String → List RowDict → QueryValue
  | rowsAffected : Int → QueryValue
deriving DecidableEq, Repr

/-- Observable effects on the acquired connection: whether `conn.commit()`
ran and whether `conn.close()` ran (the `finally` at lines 58-59, 87-88,
187-188). -/
structure ConnState where
  committed : Bool
  closed : Bool
deriving DecidableEq, Repr

/-- Shallow embedding of `run_query` (lines 40-59) for an invocation that
acquired a connection.  The input is the driver's behaviour for this
statement: either an execution error (which the `try` body propagates) or
the cursor state after `execute`.  The `ConnState` component records the
effects; `closed := true` on every branch is the `finally: conn.close()`. -/
def run_query (beh : Except String Cursor) : Except String QueryValue × ConnState :=
  match beh with
  | .error e => (.error e, { committed := false, closed := true })
  | .ok cur =>
    if descTruthy cur.description then
      (.ok (.resultRows (columnNames cur.description) cur.rows),
        { committed := false, closed := true })
    else
      (.ok (.rowsAffected cur.rowcount), { committed := true, closed := true })

/-- One row of the `INFORMATION_SCHEMA.COLUMNS` query (lines 69-74). -/
structure ColumnRow where
  column_name : String
  data_type : String
  is_nullable : String
  character_maximum_length : Option Int
deriving DecidableEq, Repr

/-- One element of `describe_table`'s result (lines 78-86). -/
structure TableColumn where
  column : String
  type : String
  nullable : Bool
  length : Option Int
deriving DecidableEq, Repr

/-- Pure core of `describe_table`: the list comprehension at lines 78-86. -/
def describe_table_rows (rows : List ColumnRow) : List TableColumn :=
  rows.map (fun row =>
    { column := row.column_name, type := row.data_type,
      nullable := row.is_nullable = "YES", length := row.character_maximum_length })

/-- Shallow embedding of `describe_table` (lines 62-88): the catalog query
either fails (propagated) or yields rows mapped by `describe_table_rows`;
the tool never commits, and the `finally` closes the connection on every
path. -/
def describe_table (beh : Except String (List ColumnRow)) :
    Except String (List TableColumn) × ConnState :=
  (beh.map describe_table_rows, { committed := false, closed := true })

/-- Shallow embedding of `describe_indexes_and_foreign_keys`
(lines 91-188): the two catalog queries either fail somewhere (propagated)
or yield the index-statistics and key-usage row sets; the tool never
commits, and the `finally` closes the connection on every path. -/
def describe_indexes_and_foreign_keys
    (beh : Except String (List IdxRow × List FkRow)) :
    Except String IfkResult × ConnState :=
  (beh.map (fun p => describe_ifk_rows p.1 p.2), { committed := false, closed := true })

/-- Comparison of index-column entries by their catalog sequence position;
this is the order the spec means by "sorting columns by sequence-in-index". -/
def colLe (a b : IndexColumn) : Prop := a.seq_in_index ≤ b.seq_in_index

instance : DecidableRel colLe := fun a b => Nat.decLe a.seq_in_index b.seq_in_index

instance : IsTotal IndexColumn colLe := ⟨fun a b => Nat.le_total a.seq_in_index b.seq_in_index⟩

instance : IsTrans IndexColumn colLe := ⟨fun _ _ _ => Nat.le_trans⟩

/-- Stable sort of a column list by sequence-in-index (spec-side operation
used to state order-independence of the index grouping). -/
def sortBySeq (l : List IndexColumn) : List IndexColumn := l.insertionSort colLe

/-- An index descriptor with its column list sorted by sequence-in-index. -/
def sortDesc (d : IndexDescriptor) : IndexDescriptor :=
  { d with columns := sortBySeq d.columns }

/-- Concrete key-usage row whose referenced schema contains a dot. -/
def fkDotRow1 : FkRow where
  constraint_name := "k"
  table_schema := "s"
  table_name := "t"
  column_name := "c1"
  referenced_table_schema := "a.b"
  referenced_table_name := "c"
  referenced_column_name := "id"

/-- Concrete key-usage row whose referenced table contains a dot; its
dot-joined inbound key collides with `fkDotRow1`'s. -/
def fkDotRow2 : FkRow where
  constraint_name := "k"
  table_schema := "s"
  table_name := "t"
  column_name := "c2"
  referenced_table_schema := "a"
  referenced_table_name := "b.c"
  referenced_column_name := "id"

/-- Concrete foreign key named `fk_parent` referencing `shared.users`. -/
def fkSepRow1 : FkRow where
  constraint_name := "fk_parent"
  table_schema := "s1"
  table_name := "child1"
  column_name := "c1"
  referenced_table_schema := "shared"
  referenced_table_name := "users"
  referenced_column_name := "id"

/-- Concrete foreign key also named `fk_parent`, referencing the table
`users` of a different schema. -/
def fkSepRow2 : FkRow where
  constraint_name := "fk_parent"
  table_schema := "s2"
  table_name := "child2"
  column_name := "c2"
  referenced_table_schema := "shared2"
  referenced_table_name := "users"
  referenced_column_name := "id"

/-- Concrete outbound row creating constraint `fk1`. -/
def fkFirstRow : FkRow where
  constraint_name := "fk1"
  table_schema := "s1"
  table_name := "t1"
  column_name := "c1"
  referenced_table_schema := "rs1"
  referenced_table_name := "rt1"
  referenced_column_name := "rc1"

/-- Concrete later row with the same constraint name as `fkFirstRow` but
different referenced schema/table and different source schema/table. -/
def fkSecondRow : FkRow where
  constraint_name := "fk1"
  table_schema := "s2"
  table_name := "t2"
  column_name := "c2"
  referenced_table_schema := "rs2"
  referenced_table_name := "rt2"
  referenced_column_name := "rc2"

/-- Concrete index row: name `i`, sequence 1, column `a`. -/
def idxTieRowA : IdxRow where
  index_name := some "i"
  is_primary_or_unique := true
  seq_in_index := 1
  column_name := "a"

/-- Concrete index row with the same name and the same sequence value as
`idxTieRowA` but a different column name. -/
def idxTieRowB : IdxRow where
  index_name := some "i"
  is_primary_or_unique := true
  seq_in_index := 1
  column_name := "b"

/-- Concrete index row: name `i`, sequence 2, column `b`. -/
def idxSeqRow2 : IdxRow where
  index_name := some "i"
  is_primary_or_unique := true
  seq_in_index := 2
  column_name := "b"

/-- Concrete index row: name `i`, sequence 1, column `a`. -/
def idxSeqRow1 : IdxRow where
  index_name := some "i"
  is_primary_or_unique := true
  seq_in_index := 1
  column_name := "a"

/-- Concrete index row with a NULL index name. -/
def unnamedRow1 : IdxRow where
  index_name := none
  is_primary_or_unique := true
  seq_in_index := 1
  column_name := "x"

/-- Concrete index row with an empty-string index name and a different
uniqueness flag than `unnamedRow1`. -/
def unnamedRow2 : IdxRow where
  index_name := some ""
  is_primary_or_unique := false
  seq_in_index := 1
  column_name := "y"


theorem alistLookup_append (k : String) (m m2 : List (String × β)) :
    alistLookup k (m ++ m2) =
      match alistLookup k m with
      | some v => some v
      | none => alistLookup k m2 := by
  induction m with
  | nil => simp [alistLookup]
  | cons p t ih => by_cases h : p.1 = k <;> simp [alistLookup, h, ih]

theorem alistLookup_modify_self (k : String) (f : β → β) (m : List (String × β)) :
    alistLookup k (alistModify k f m) = (alistLookup k m).map f := by
  induction m with
  | nil => simp [alistLookup, alistModify]
  | cons p t ih => by_cases h : p.1 = k <;> simp [alistLookup, alistModify, h, ih]

theorem alistLookup_modify_ne (k k2 : String) (hne : k2 ≠ k) (f : β → β)
    (m : List (String × β)) :
    alistLookup k (alistModify k2 f m) = alistLookup k m := by
  induction m with
  | nil => simp [alistModify]
  | cons p t ih =>
    by_cases h : p.1 = k2
    · have hk : ¬p.1 = k := h ▸ hne
      simp [alistLookup, alistModify, h, hk, hne]
    · simp [alistLookup, alistModify, h, ih]

theorem alistModify_keys (k : String) (f : β → β) (m : List (String × β)) :
    (alistModify k f m).map Prod.fst = m.map Prod.fst := by
  induction m with
  | nil => simp [alistModify]
  | cons p t ih => by_cases h : p.1 = k <;> simp [alistModify, h, ih]

theorem alistLookup_eq_none_iff (k : String) (m : List (String × β)) :
    alistLookup k m = none ↔ k ∉ m.map Prod.fst := by
  induction m with
  | nil => simp [alistLookup]
  | cons p t ih =>
    by_cases h : p.1 = k
    · simp [alistLookup, h]
    · simp only [alistLookup, if_neg h, List.map_cons, List.mem_cons, ih]
      constructor
      · intro hk
        rintro (rfl | hm)
        · exact h rfl
        · exact hk hm
      · intro hk hm
        exact hk (Or.inr hm)

theorem alistLookup_isSome_iff (k : String) (m : List (String × β)) :
    (alistLookup k m).isSome = true ↔ k ∈ m.map Prod.fst := by
  rcases h : alistLookup k m with _ | v
  · simp [(alistLookup_eq_none_iff k m).mp h]
  · simp only [Option.isSome_some, true_iff]
    by_contra hk
    rw [(alistLookup_eq_none_iff k m).mpr hk] at h
    simp at h

theorem alistLookup_mem_iff (k : String) (v : β) (m : List (String × β))
    (hnd : (m.map Prod.fst).Nodup) :
    (k, v) ∈ m ↔ alistLookup k m = some v := by
  induction m with
  | nil => simp [alistLookup]
  | cons p t ih =>
    obtain ⟨k2, v2⟩ := p
    simp only [List.map_cons, List.nodup_cons] at hnd
    by_cases h : k2 = k
    · subst h
      have hmem : (k2, v) ∈ t → False := fun hm =>
        hnd.1 (List.mem_map_of_mem Prod.fst hm)
      simp only [alistLookup, if_pos rfl, List.mem_cons, Prod.mk.injEq, true_and]
      constructor
      · rintro (rfl | hm)
        · rfl
        · exact absurd hm hmem
      · intro h2
        exact Or.inl (Option.some.inj h2).symm
    · simp only [alistLookup, if_neg h, List.mem_cons, Prod.mk.injEq]
      rw [← ih hnd.2]
      constructor
      · rintro (⟨rfl, -⟩ | hm)
        · exact absurd rfl h
        · exact hm
      · exact Or.inr

theorem alist_perm_of_lookup_eq (m1 m2 : List (String × β))
    (h1 : (m1.map Prod.fst).Nodup) (h2 : (m2.map Prod.fst).Nodup)
    (h : ∀ k, alistLookup k m1 = alistLookup k m2) : m1.Perm m2 := by
  rw [List.perm_ext_iff_of_nodup (h1.of_map _) (h2.of_map _)]
  rintro ⟨k, v⟩
  rw [alistLookup_mem_iff k v m1 h1, alistLookup_mem_iff k v m2 h2, h k]

theorem alistLookup_mapVal (g : β → γ) (k : String) (m : List (String × β)) :
    alistLookup k (m.map (fun p => (p.1, g p.2))) = (alistLookup k m).map g := by
  induction m with
  | nil => simp [alistLookup]
  | cons p t ih => by_cases h : p.1 = k <;> simp [alistLookup, h, ih]

theorem alist_filter_key_singleton (k : String) (v : β) (m : List (String × β))
    (hnd : (m.map Prod.fst).Nodup) (h : alistLookup k m = some v) :
    (m.filter (fun p => p.1 = k)).length = 1 := by
  induction m with
  | nil => simp [alistLookup] at h
  | cons p t ih =>
    simp only [List.map_cons, List.nodup_cons] at hnd
    by_cases hp : p.1 = k
    · subst hp
      have : alistLookup p.1 t = none :=
        (alistLookup_eq_none_iff p.1 t).mpr hnd.1
      have hfilter : t.filter (fun q => q.1 = p.1) = [] := by
        rw [List.filter_eq_nil_iff]
        intro q hq hdec
        exact hnd.1 (by
          simp only [decide_eq_true_eq] at hdec
          exact hdec ▸ List.mem_map_of_mem Prod.fst hq)
      simp [List.filter_cons, hfilter]
    · rw [alistLookup, if_neg hp] at h
      simpa [List.filter_cons, hp] using ih hnd.2 h

section DictFoldLemmas

variable {ρ β : Type} (fkey : ρ → String) (fnew : ρ → β) (fupd : ρ → β → β)

theorem dictStep_lookup_hit (m : List (String × β)) (r : ρ) (k : String)
    (hk : fkey r = k) (v : β) (h : alistLookup k m = some v) :
    alistLookup k (dictStep fkey fnew fupd m r) = some (fupd r v) := by
  simp [dictStep, hk, h, alistLookup_modify_self]

theorem dictStep_lookup_new (m : List (String × β)) (r : ρ) (k : String)
    (hk : fkey r = k) (h : alistLookup k m = none) :
    alistLookup k (dictStep fkey fnew fupd m r) = some (fupd r (fnew r)) := by
  simp only [dictStep, hk, h, Option.isSome_none, Bool.false_eq_true, if_false,
    alistLookup_modify_self, alistLookup_append, h]
  simp [alistLookup]

theorem dictStep_lookup_miss (m : List (String × β)) (r : ρ) (k : String)
    (hk : fkey r ≠ k) :
    alistLookup k (dictStep fkey fnew fupd m r) = alistLookup k m := by
  simp only [dictStep]
  rw [alistLookup_modify_ne _ _ hk]
  by_cases h : (alistLookup (fkey r) m).isSome
  · simp [h]
  · rw [if_neg h, alistLookup_append]
    cases h2 : alistLookup k m with
    | none => simp [alistLookup, hk]
    | some v => rfl

theorem dictFold_lookup_aux (rows : List ρ) (m : List (String × β)) (k : String) :
    alistLookup k (rows.foldl (dictStep fkey fnew fupd) m) =
      match alistLookup k m with
      | some v => some ((rows.filter (fun r => fkey r = k)).foldl (fun b r => fupd r b) v)
      | none =>
        match rows.filter (fun r => fkey r = k) with
        | [] => none
        | r0 :: rest => some (rest.foldl (fun b r => fupd r b) (fupd r0 (fnew r0))) := by
  induction rows generalizing m with
  | nil => cases h : alistLookup k m <;> simp [h]
  | cons r rows ih =>
    rw [List.foldl_cons, ih]
    by_cases hk : fkey r = k
    · cases h : alistLookup k m with
      | some v =>
        rw [dictStep_lookup_hit fkey fnew fupd m r k hk v h]
        simp [List.filter_cons, hk]
      | none =>
        rw [dictStep_lookup_new fkey fnew fupd m r k hk h]
        simp [List.filter_cons, hk]
    · rw [dictStep_lookup_miss fkey fnew fupd m r k hk]
      cases h : alistLookup k m <;> simp [List.filter_cons, hk]

theorem dictFold_lookup (rows : List ρ) (k : String) :
    alistLookup k (dictFold fkey fnew fupd rows) =
      match rows.filter (fun r => fkey r = k) with
      | [] => none
      | r0 :: rest => some (rest.foldl (fun b r => fupd r b) (fupd r0 (fnew r0))) := by
  rw [dictFold, dictFold_lookup_aux]
  simp [alistLookup]

theorem dictStep_keys (m : List (String × β)) (r : ρ) :
    (dictStep fkey fnew fupd m r).map Prod.fst =
      if (alistLookup (fkey r) m).isSome then m.map Prod.fst
      else m.map Prod.fst ++ [fkey r] := by
  by_cases h : (alistLookup (fkey r) m).isSome <;>
    simp [dictStep, h, alistModify_keys]

theorem dictFold_keys_nodup_aux (rows : List ρ) (m : List (String × β))
    (h : (m.map Prod.fst).Nodup) :
    ((rows.foldl (dictStep fkey fnew fupd) m).map Prod.fst).Nodup := by
  induction rows generalizing m with
  | nil => exact h
  | cons r rows ih =>
    rw [List.foldl_cons]
    apply ih
    rw [dictStep_keys]
    by_cases hk : (alistLookup (fkey r) m).isSome
    · simpa [hk] using h
    · have hmem : fkey r ∉ m.map Prod.fst := by
        rw [← alistLookup_isSome_iff]
        simp [hk]
      simp [hk, List.nodup_append, h, hmem]

theorem dictFold_keys_nodup (rows : List ρ) :
    ((dictFold fkey fnew fupd rows).map Prod.fst).Nodup :=
  dictFold_keys_nodup_aux fkey fnew fupd rows [] (by simp)

end DictFoldLemmas

theorem find?_eq_filter_head? (p : ρ → Bool) (l : List ρ) :
    l.find? p = (l.filter p).head? := by
  induction l with
  | nil => simp
  | cons a l ih =>
    cases h : p a
    · rw [List.find?_cons_of_neg _ (by simp [h]), List.filter_cons_of_neg (by simp [h])]
      exact ih
    · rw [List.find?_cons_of_pos _ h, List.filter_cons_of_pos h]
      simp

theorem foldl_columns_index (l : List IdxRow) (b : IndexDescriptor) :
    l.foldl (fun d r => { d with columns := d.columns ++ [idxCol r] }) b =
      { b with columns := b.columns ++ l.map idxCol } := by
  induction l generalizing b with
  | nil => simp
  | cons r l ih => simp [ih]

theorem foldl_columns_outbound (l : List FkRow) (b : OutboundFk) :
    l.foldl (fun d r => { d with columns := d.columns ++ [fkEntry r] }) b =
      { b with columns := b.columns ++ l.map fkEntry } := by
  induction l generalizing b with
  | nil => simp
  | cons r l ih => simp [ih]

theorem foldl_columns_inbound (l : List FkRow) (b : InboundFk) :
    l.foldl (fun d r => { d with columns := d.columns ++ [fkEntry r] }) b =
      { b with columns := b.columns ++ l.map fkEntry } := by
  induction l generalizing b with
  | nil => simp
  | cons r l ih => simp [ih]

theorem foldIndexes_lookup (rows : List IdxRow) (k : String) :
    alistLookup k (foldIndexes rows) =
      (rows.find? (fun r => idxKey r = k)).map (fun r0 =>
        { name := k, is_primary_or_unique := r0.is_primary_or_unique,
          columns := (rows.filter (fun r => idxKey r = k)).map idxCol }) := by
  rw [foldIndexes, dictFold_lookup, find?_eq_filter_head?]
  cases hf : rows.filter (fun r => idxKey r = k) with
  | nil => rfl
  | cons r0 rest =>
    have hk0 : idxKey r0 = k := by
      have : r0 ∈ rows.filter (fun r => idxKey r = k) := by
        rw [hf]; exact List.mem_cons_self r0 rest
      simpa using (List.of_mem_filter this)
    simp only [List.head?_cons, Option.map_some]
    rw [foldl_columns_index]
    simp [newIndexDescriptor, hk0, hf]

theorem foldFks_eq_pair (rows : List FkRow) :
    foldFks rows =
      (rows.foldl outboundStep [], rows.foldl inboundStep []) := by
  rw [foldFks]
  suffices h : ∀ (a : List (String × OutboundFk)) (b : List (String × InboundFk)),
      rows.foldl (fun acc r => (outboundStep acc.1 r, inboundStep acc.2 r)) (a, b) =
        (rows.foldl outboundStep a, rows.foldl inboundStep b) from h [] []
  induction rows with
  | nil => intro a b; rfl
  | cons r rows ih => intro a b; simp [List.foldl_cons, ih]

theorem foldOutbound_lookup (rows : List FkRow) (k : String) :
    alistLookup k (foldFks rows).1 =
      (rows.find? (fun r => r.constraint_name = k)).map (fun r0 =>
        { name := r0.constraint_name, target_schema := r0.referenced_table_schema,
          target_table := r0.referenced_table_name,
          columns := (rows.filter (fun r => r.constraint_name = k)).map fkEntry }) := by
  rw [foldFks_eq_pair]
  show alistLookup k (dictFold (fun r => r.constraint_name) newOutboundFk
    (fun r d => { d with columns := d.columns ++ [fkEntry r] }) rows) = _
  rw [dictFold_lookup, find?_eq_filter_head?]
  cases hf : rows.filter (fun r => r.constraint_name = k) with
  | nil => rfl
  | cons r0 rest =>
    simp only [List.head?_cons, Option.map_some]
    rw [foldl_columns_outbound]
    simp [newOutboundFk, hf]

theorem foldInbound_lookup (rows : List FkRow) (k : String) :
    alistLookup k (foldFks rows).2 =
      (rows.find? (fun r => inbKey r = k)).map (fun r0 =>
        { name := r0.constraint_name, source_schema := r0.table_schema,
          source_table := r0.table_name,
          columns := (rows.filter (fun r => inbKey r = k)).map fkEntry }) := by
  rw [foldFks_eq_pair]
  show alistLookup k (dictFold inbKey newInboundFk
    (fun r d => { d with columns := d.columns ++ [fkEntry r] }) rows) = _
  rw [dictFold_lookup, find?_eq_filter_head?]
  cases hf : rows.filter (fun r => inbKey r = k) with
  | nil => rfl
  | cons r0 rest =>
    simp only [List.head?_cons, Option.map_some]
    rw [foldl_columns_inbound]
    simp [newInboundFk, hf]

theorem foldIndexes_keys_nodup (rows : List IdxRow) :
    ((foldIndexes rows).map Prod.fst).Nodup :=
  dictFold_keys_nodup _ _ _ rows

theorem foldOutbound_keys_nodup (rows : List FkRow) :
    (((foldFks rows).1).map Prod.fst).Nodup := by
  rw [foldFks_eq_pair]
  exact dictFold_keys_nodup _ _ _ rows

theorem foldInbound_keys_nodup (rows : List FkRow) :
    (((foldFks rows).2).map Prod.fst).Nodup := by
  rw [foldFks_eq_pair]
  exact dictFold_keys_nodup _ _ _ rows

section DictFoldCount

variable {ρ β : Type} (fkey : ρ → String) (fnew : ρ → β) (fupd : ρ → β → β)

theorem alistModify_sum_len (len : β → Nat) (k : String) (f : β → β)
    (hf : ∀ v, len (f v) = len v + 1) (m : List (String × β))
    (h : (alistLookup k m).isSome = true) :
    ((alistModify k f m).map (fun p => len p.2)).sum =
      (m.map (fun p => len p.2)).sum + 1 := by
  induction m with
  | nil => simp [alistLookup] at h
  | cons p t ih =>
    by_cases hp : p.1 = k
    · simp only [alistModify, if_pos hp, List.map_cons, List.sum_cons, hf]
      omega
    · rw [alistLookup, if_neg hp] at h
      simp only [alistModify, if_neg hp, List.map_cons, List.sum_cons, ih h]
      omega

theorem dictStep_sum_len (len : β → Nat)
    (hnew : ∀ r, len (fnew r) = 0) (hupd : ∀ r v, len (fupd r v) = len v + 1)
    (m : List (String × β)) (r : ρ) :
    ((dictStep fkey fnew fupd m r).map (fun p => len p.2)).sum =
      (m.map (fun p => len p.2)).sum + 1 := by
  by_cases h : (alistLookup (fkey r) m).isSome
  · rw [show dictStep fkey fnew fupd m r = alistModify (fkey r) (fupd r) m by
      simp [dictStep, h]]
    exact alistModify_sum_len len (fkey r) (fupd r) (hupd r) m h
  · have hstep : dictStep fkey fnew fupd m r =
        alistModify (fkey r) (fupd r) (m ++ [(fkey r, fnew r)]) := by
      simp [dictStep, h]
    have hsome : (alistLookup (fkey r) (m ++ [(fkey r, fnew r)])).isSome = true := by
      rw [alistLookup_append]
      rcases h2 : alistLookup (fkey r) m with _ | v
      · simp [alistLookup]
      · simp
    rw [hstep, alistModify_sum_len len (fkey r) (fupd r) (hupd r) _ hsome]
    simp [hnew]

theorem dictFold_sum_len (len : β → Nat)
    (hnew : ∀ r, len (fnew r) = 0) (hupd : ∀ r v, len (fupd r v) = len v + 1)
    (rows : List ρ) :
    ((dictFold fkey fnew fupd rows).map (fun p => len p.2)).sum = rows.length := by
  suffices h : ∀ m : List (String × β),
      ((rows.foldl (dictStep fkey fnew fupd) m).map (fun p => len p.2)).sum =
        (m.map (fun p => len p.2)).sum + rows.length by
    simpa using h []
  induction rows with
  | nil => intro m; simp
  | cons r rows ih =>
    intro m
    rw [List.foldl_cons, ih, dictStep_sum_len fkey fnew fupd len hnew hupd]
    simp
    omega

end DictFoldCount


theorem sortBySeq_eq_of_perm (l1 l2 : List IndexColumn) (hp : l1.Perm l2)
    (hinj : ∀ a ∈ l1, ∀ b ∈ l1, a.seq_in_index = b.seq_in_index → a = b) :
    sortBySeq l1 = sortBySeq l2 := by
  refine List.Perm.eq_of_sorted ?_ (List.sorted_insertionSort colLe l1)
    (List.sorted_insertionSort colLe l2)
    ((List.perm_insertionSort colLe l1).trans
      (hp.trans (List.perm_insertionSort colLe l2).symm))
  intro a b ha hb hab hba
  exact hinj a ((List.perm_insertionSort colLe l1).subset ha)
    b (hp.symm.subset ((List.perm_insertionSort colLe l2).subset hb))
    (Nat.le_antisymm hab hba)

/-- C1: in the foreign-key fold, every key-usage row contributes exactly one
`{column, references}` entry to the outbound grouping and exactly one to the
inbound grouping, so the column entries summed over all outbound descriptors
equal the number of input rows, and likewise for inbound descriptors. -/
theorem fk_fold_conserves_row_count (rows : List FkRow) :
    ((foldFks rows).1.map (fun p => p.2.columns.length)).sum = rows.length ∧
    ((foldFks rows).2.map (fun p => p.2.columns.length)).sum = rows.length := by
  rw [foldFks_eq_pair]
  constructor
  · exact dictFold_sum_len (fun r => r.constraint_name) newOutboundFk
      (fun r d => { d with columns := d.columns ++ [fkEntry r] })
      (fun d => d.columns.length) (fun r => rfl) (fun r v => by simp) rows
  · exact dictFold_sum_len inbKey newInboundFk
      (fun r d => { d with columns := d.columns ++ [fkEntry r] })
      (fun d => d.columns.length) (fun r => rfl) (fun r v => by simp) rows

/-- C3: the index fold produces exactly one descriptor per distinct
index-name key (the keys of the `indexes` dict are distinct), every row with
that key lands in that descriptor's column list in input order, and the
descriptor's `is_primary_or_unique` flag is the flag of the first row seen
for that name, unchanged by any later row. -/
theorem index_fold_groups_by_name (rows : List IdxRow) :
    ((foldIndexes rows).map Prod.fst).Nodup ∧
    ∀ k, alistLookup k (foldIndexes rows) =
      (rows.find? (fun r => idxKey r = k)).map (fun r0 =>
        { name := k, is_primary_or_unique := r0.is_primary_or_unique,
          columns := (rows.filter (fun r => idxKey r = k)).map idxCol }) :=
  ⟨foldIndexes_keys_nodup rows, fun k => foldIndexes_lookup rows k⟩

/-- C6: on a successfully executed statement, `run_query` returns exactly one
of two shapes: when the driver reports a result-set shape it returns the
column names in positional order and the fetched rows without committing;
otherwise it commits and returns the driver-reported affected-row count. -/
theorem run_query_two_shapes (cur : Cursor) :
    (descTruthy cur.description = true ∧
      run_query (Except.ok cur) =
        (Except.ok (QueryValue.resultRows (columnNames cur.description) cur.rows),
          { committed := false, closed := true })) ∨
    (descTruthy cur.description = false ∧
      run_query (Except.ok cur) =
        (Except.ok (QueryValue.rowsAffected cur.rowcount),
          { committed := true, closed := true })) := by
  cases h : descTruthy cur.description
  · exact Or.inr ⟨rfl, by simp [run_query, h]⟩
  · exact Or.inl ⟨rfl, by simp [run_query, h]⟩

/-- C7: a catalog that returns zero rows is not an error: `describe_table`
returns an empty list and `describe_indexes_and_foreign_keys` returns empty
indexes/outbound/inbound lists, in both cases a successful result. -/
theorem empty_catalog_results_empty :
    describe_table (Except.ok []) =
      (Except.ok [], { committed := false, closed := true }) ∧
    describe_indexes_and_foreign_keys (Except.ok ([], [])) =
      (Except.ok
        { indexes := [], foreign_keys_outbound := [], foreign_keys_inbound := [] },
        { committed := false, closed := true }) :=
  ⟨rfl, rfl⟩

/-- C8: whatever the driver behaviour — success or an execution error — each
of the three tools closes (releases) the acquired connection: the `finally`
block runs on every exit path. -/
theorem connection_closed_on_all_paths :
    (∀ beh, ((run_query beh).2).closed = true) ∧
    (∀ beh, ((describe_table beh).2).closed = true) ∧
    (∀ beh, ((describe_indexes_and_foreign_keys beh).2).closed = true) := by
  refine ⟨fun beh => ?_, fun beh => rfl, fun beh => rfl⟩
  cases beh with
  | error e => rfl
  | ok cur => by_cases h : descTruthy cur.description <;> simp [run_query, h]

/-- C10: `run_query` commits exactly when execution succeeded and the driver
reported no result-set shape; a row-producing statement or a failed
execution leaves the transaction uncommitted. -/
theorem run_query_commit_iff (beh : Except String Cursor) :
    ((run_query beh).2).committed = true ↔
      ∃ cur, beh = Except.ok cur ∧ descTruthy cur.description = false := by
  cases beh with
  | error e => simp [run_query]
  | ok cur => cases h : descTruthy cur.description <;> simp [run_query, h]

/-- C9: the header fields of an outbound descriptor (`name`,
`target_schema`, `target_table`) are taken solely from the first row seen
with that constraint name; later rows with the same name only append to the
columns list.  Likewise the header fields of an inbound descriptor (`name`,
`source_schema`, `source_table`) come from the first row seen with its
composite key. -/
theorem fk_descriptor_header_from_first_row (rows : List FkRow) (fk key : String)
    (r0 r1 : FkRow)
    (h0 : rows.find? (fun r => r.constraint_name = fk) = some r0)
    (h1 : rows.find? (fun r => inbKey r = key) = some r1) :
    (∃ d, alistLookup fk (foldFks rows).1 = some d ∧
      d.name = r0.constraint_name ∧
      d.target_schema = r0.referenced_table_schema ∧
      d.target_table = r0.referenced_table_name ∧
      d.columns = (rows.filter (fun r => r.constraint_name = fk)).map fkEntry) ∧
    (∃ d, alistLookup key (foldFks rows).2 = some d ∧
      d.name = r1.constraint_name ∧
      d.source_schema = r1.table_schema ∧
      d.source_table = r1.table_name ∧
      d.columns = (rows.filter (fun r => inbKey r = key)).map fkEntry) := by
  constructor
  · have hd : alistLookup fk (foldFks rows).1 =
        some { name := r0.constraint_name,
               target_schema := r0.referenced_table_schema,
               target_table := r0.referenced_table_name,
               columns := (rows.filter (fun r => r.constraint_name = fk)).map fkEntry } := by
      rw [foldOutbound_lookup, h0]
      rfl
    exact ⟨_, hd, rfl, rfl, rfl, rfl⟩
  · have hd : alistLookup key (foldFks rows).2 =
        some { name := r1.constraint_name,
               source_schema := r1.table_schema,
               source_table := r1.table_name,
               columns := (rows.filter (fun r => inbKey r = key)).map fkEntry } := by
      rw [foldInbound_lookup, h1]
      rfl
    exact ⟨_, hd, rfl, rfl, rfl, rfl⟩

/-- Witness for C9 at a concrete two-row input whose second row carries the
same constraint name as the first but different referenced schema/table. -/
theorem fk_descriptor_header_from_first_row_witness :
    (∃ d, alistLookup "fk1" (foldFks [fkFirstRow, fkSecondRow]).1 = some d ∧
      d.name = fkFirstRow.constraint_name ∧
      d.target_schema = fkFirstRow.referenced_table_schema ∧
      d.target_table = fkFirstRow.referenced_table_name ∧
      d.columns = ([fkFirstRow, fkSecondRow].filter
        (fun r => r.constraint_name = "fk1")).map fkEntry) ∧
    (∃ d, alistLookup "rs1.rt1.fk1" (foldFks [fkFirstRow, fkSecondRow]).2 = some d ∧
      d.name = fkFirstRow.constraint_name ∧
      d.source_schema = fkFirstRow.table_schema ∧
      d.source_table = fkFirstRow.table_name ∧
      d.columns = ([fkFirstRow, fkSecondRow].filter
        (fun r => inbKey r = "rs1.rt1.fk1")).map fkEntry) :=
  fk_descriptor_header_from_first_row [fkFirstRow, fkSecondRow] "fk1" "rs1.rt1.fk1"
    fkFirstRow fkFirstRow (by decide) (by decide)

/-- C5: every index-statistics row whose name is NULL or empty is keyed by
the literal placeholder `"(unnamed)"`; all such rows — even rows of several
genuinely distinct unnamed indexes — land in the single descriptor named
`"(unnamed)"`, of which the `indexes` dict holds exactly one. -/
theorem unnamed_rows_collapse (rows : List IdxRow) (r : IdxRow) (hr : r ∈ rows)
    (hu : r.index_name = none ∨ r.index_name = some "") :
    idxKey r = "(unnamed)" ∧
    ∃ d, alistLookup "(unnamed)" (foldIndexes rows) = some d ∧
      d.name = "(unnamed)" ∧
      idxCol r ∈ d.columns ∧
      d.columns = (rows.filter (fun r2 => idxKey r2 = "(unnamed)")).map idxCol ∧
      ((foldIndexes rows).filter (fun p => p.1 = "(unnamed)")).length = 1 := by
  have hkey : idxKey r = "(unnamed)" := by
    rcases hu with h | h <;> simp [idxKey, h]
  refine ⟨hkey, ?_⟩
  have hsome : (rows.find? (fun r2 => idxKey r2 = "(unnamed)")).isSome := by
    rw [List.find?_isSome]
    exact ⟨r, hr, by simp [hkey]⟩
  obtain ⟨r0, hr0⟩ := Option.isSome_iff_exists.mp hsome
  have hlook : alistLookup "(unnamed)" (foldIndexes rows) =
      some { name := "(unnamed)", is_primary_or_unique := r0.is_primary_or_unique,
             columns := (rows.filter (fun r2 => idxKey r2 = "(unnamed)")).map idxCol } := by
    rw [foldIndexes_lookup, hr0]
    rfl
  refine ⟨_, hlook, rfl, ?_, rfl,
    alist_filter_key_singleton _ _ _ (foldIndexes_keys_nodup rows) hlook⟩
  exact List.mem_map_of_mem idxCol (List.mem_filter.mpr ⟨hr, by simp [hkey]⟩)

/-- Witness for C5 at a concrete input holding one NULL-named row and one
empty-named row: both collapse into the single `"(unnamed)"` descriptor. -/
theorem unnamed_rows_collapse_witness :
    idxKey unnamedRow1 = "(unnamed)" ∧
    ∃ d, alistLookup "(unnamed)" (foldIndexes [unnamedRow1, unnamedRow2]) = some d ∧
      d.name = "(unnamed)" ∧
      idxCol unnamedRow1 ∈ d.columns ∧
      d.columns = ([unnamedRow1, unnamedRow2].filter
        (fun r2 => idxKey r2 = "(unnamed)")).map idxCol ∧
      ((foldIndexes [unnamedRow1, unnamedRow2]).filter
        (fun p => p.1 = "(unnamed)")).length = 1 :=
  unnamed_rows_collapse [unnamedRow1, unnamedRow2] unnamedRow1
    (List.mem_cons_self unnamedRow1 [unnamedRow2]) (Or.inl rfl)

/-- Counterexample to C2 as stated: the two concrete rows have different
(referenced_schema, referenced_table, constraint_name) triples, yet the fold
merges them into a single inbound descriptor with a mixed column list,
because the dict key is the dot-joined string `"a.b.c.k"` for both. -/
theorem inbound_triple_key_collision :
    (fkDotRow1.referenced_table_schema, fkDotRow1.referenced_table_name,
        fkDotRow1.constraint_name) ≠
      (fkDotRow2.referenced_table_schema, fkDotRow2.referenced_table_name,
        fkDotRow2.constraint_name) ∧
    inbKey fkDotRow1 = inbKey fkDotRow2 ∧
    ((foldFks [fkDotRow1, fkDotRow2]).2).length = 1 ∧
    ((foldFks [fkDotRow1, fkDotRow2]).2).map Prod.snd =
      [{ name := "k", source_schema := "s", source_table := "t",
         columns := [fkEntry fkDotRow1, fkEntry fkDotRow2] }] := by
  decide

/-- C2 (amended): any two key-usage rows whose dot-joined inbound keys
`referenced_schema ++ "." ++ referenced_table ++ "." ++ constraint_name`
differ — which, for dot-free fields, is exactly when their composite triples
differ — are placed in different inbound descriptors: each row's entry goes
to the descriptor bound to its own key, the two keys are distinct bindings
of the dict, and neither descriptor's column list contains entries of rows
with any other key. -/
theorem inbound_separated_by_joined_key (rows : List FkRow) (r1 r2 : FkRow)
    (h1 : r1 ∈ rows) (h2 : r2 ∈ rows) (hk : inbKey r1 ≠ inbKey r2) :
    ∃ d1 d2, alistLookup (inbKey r1) (foldFks rows).2 = some d1 ∧
      alistLookup (inbKey r2) (foldFks rows).2 = some d2 ∧
      (inbKey r1, d1) ∈ (foldFks rows).2 ∧
      (inbKey r2, d2) ∈ (foldFks rows).2 ∧
      (inbKey r1, d1) ≠ (inbKey r2, d2) ∧
      d1.columns = (rows.filter (fun r => inbKey r = inbKey r1)).map fkEntry ∧
      d2.columns = (rows.filter (fun r => inbKey r = inbKey r2)).map fkEntry ∧
      fkEntry r1 ∈ d1.columns ∧ fkEntry r2 ∈ d2.columns := by
  have hnd := foldInbound_keys_nodup rows
  have hs1 : (rows.find? (fun r => inbKey r = inbKey r1)).isSome := by
    rw [List.find?_isSome]
    exact ⟨r1, h1, by simp⟩
  have hs2 : (rows.find? (fun r => inbKey r = inbKey r2)).isSome := by
    rw [List.find?_isSome]
    exact ⟨r2, h2, by simp⟩
  obtain ⟨s1, hfind1⟩ := Option.isSome_iff_exists.mp hs1
  obtain ⟨s2, hfind2⟩ := Option.isSome_iff_exists.mp hs2
  have hl1 : alistLookup (inbKey r1) (foldFks rows).2 =
      some { name := s1.constraint_name,
             source_schema := s1.table_schema,
             source_table := s1.table_name,
             columns := (rows.filter (fun r => inbKey r = inbKey r1)).map fkEntry } := by
    rw [foldInbound_lookup, hfind1]
    rfl
  have hl2 : alistLookup (inbKey r2) (foldFks rows).2 =
      some { name := s2.constraint_name,
             source_schema := s2.table_schema,
             source_table := s2.table_name,
             columns := (rows.filter (fun r => inbKey r = inbKey r2)).map fkEntry } := by
    rw [foldInbound_lookup, hfind2]
    rfl
  refine ⟨_, _, hl1, hl2,
    (alistLookup_mem_iff _ _ _ hnd).mpr hl1,
    (alistLookup_mem_iff _ _ _ hnd).mpr hl2,
    fun hpair => hk (congrArg Prod.fst hpair), rfl, rfl, ?_, ?_⟩
  · exact List.mem_map_of_mem fkEntry (List.mem_filter.mpr ⟨h1, by simp⟩)
  · exact List.mem_map_of_mem fkEntry (List.mem_filter.mpr ⟨h2, by simp⟩)

/-- Witness for the amended C2: two foreign keys both named `fk_parent`,
declared in different schemas and referencing tables named `users` in two
different schemas, end up in two distinct inbound descriptors. -/
theorem inbound_separated_by_joined_key_witness :
    ∃ d1 d2,
      alistLookup (inbKey fkSepRow1) (foldFks [fkSepRow1, fkSepRow2]).2 = some d1 ∧
      alistLookup (inbKey fkSepRow2) (foldFks [fkSepRow1, fkSepRow2]).2 = some d2 ∧
      (inbKey fkSepRow1, d1) ∈ (foldFks [fkSepRow1, fkSepRow2]).2 ∧
      (inbKey fkSepRow2, d2) ∈ (foldFks [fkSepRow1, fkSepRow2]).2 ∧
      (inbKey fkSepRow1, d1) ≠ (inbKey fkSepRow2, d2) ∧
      d1.columns = ([fkSepRow1, fkSepRow2].filter
        (fun r => inbKey r = inbKey fkSepRow1)).map fkEntry ∧
      d2.columns = ([fkSepRow1, fkSepRow2].filter
        (fun r => inbKey r = inbKey fkSepRow2)).map fkEntry ∧
      fkEntry fkSepRow1 ∈ d1.columns ∧ fkEntry fkSepRow2 ∈ d2.columns :=
  inbound_separated_by_joined_key [fkSepRow1, fkSepRow2] fkSepRow1 fkSepRow2
    (by decide) (by decide) (by decide)

/-- Counterexample to C4 as stated: duplicate sequence numbers inside one
name group (two rows of index `i`, both with sequence 1, columns `a` and
`b`, and equal uniqueness flags) make the sorted column lists depend on the
input order, so folding a permutation and sorting by sequence does not
reproduce the same descriptor set. -/
theorem index_fold_order_dependent :
    (∀ r ∈ [idxTieRowA, idxTieRowB], ∀ r2 ∈ [idxTieRowA, idxTieRowB],
      idxKey r = idxKey r2 → r.is_primary_or_unique = r2.is_primary_or_unique) ∧
    [idxTieRowA, idxTieRowB].Perm [idxTieRowB, idxTieRowA] ∧
    ¬ (((foldIndexes [idxTieRowA, idxTieRowB]).map (fun p => sortDesc p.2)).Perm
      ((foldIndexes [idxTieRowB, idxTieRowA]).map (fun p => sortDesc p.2))) := by
  decide

/-- C4 (amended): for row sets in which rows sharing an index name carry the
same uniqueness flag and distinct rows sharing an index name carry distinct
sequence numbers (the catalog guarantees one row per column-in-index),
folding any permutation of the rows and sorting each descriptor's column
list by sequence-in-index yields the same multiset of descriptors; and the
unsorted intra-group column order follows input order, not the sequence
field. -/
theorem index_fold_perm_invariant (rows1 rows2 : List IdxRow)
    (hperm : rows1.Perm rows2)
    (hflag : ∀ r ∈ rows1, ∀ r2 ∈ rows1, idxKey r = idxKey r2 →
      r.is_primary_or_unique = r2.is_primary_or_unique)
    (hseq : ∀ r ∈ rows1, ∀ r2 ∈ rows1, idxKey r = idxKey r2 →
      r.seq_in_index = r2.seq_in_index → r = r2) :
    ((foldIndexes rows1).map (fun p => sortDesc p.2)).Perm
      ((foldIndexes rows2).map (fun p => sortDesc p.2)) ∧
    ∀ k d, alistLookup k (foldIndexes rows1) = some d →
      d.columns = (rows1.filter (fun r => idxKey r = k)).map idxCol := by
  constructor
  · have hlook : ∀ k,
        alistLookup k ((foldIndexes rows1).map (fun p => (p.1, sortDesc p.2))) =
        alistLookup k ((foldIndexes rows2).map (fun p => (p.1, sortDesc p.2))) := by
      intro k
      rw [alistLookup_mapVal, alistLookup_mapVal, foldIndexes_lookup, foldIndexes_lookup]
      cases hf1 : rows1.find? (fun r => idxKey r = k) with
      | none =>
        have hf2 : rows2.find? (fun r => idxKey r = k) = none := by
          rw [List.find?_eq_none] at hf1 ⊢
          intro x hx
          exact hf1 x (hperm.symm.subset hx)
        rw [hf2]
        rfl
      | some r0 =>
        have hr0mem : r0 ∈ rows1 := List.mem_of_find?_eq_some hf1
        have hr0key : idxKey r0 = k := by simpa using List.find?_some hf1
        have hs2 : (rows2.find? (fun r => idxKey r = k)).isSome := by
          rw [List.find?_isSome]
          exact ⟨r0, hperm.subset hr0mem, by simp [hr0key]⟩
        obtain ⟨r0x, hf2⟩ := Option.isSome_iff_exists.mp hs2
        rw [hf2]
        have hr0xmem : r0x ∈ rows1 := hperm.symm.subset (List.mem_of_find?_eq_some hf2)
        have hr0xkey : idxKey r0x = k := by simpa using List.find?_some hf2
        have hflagEq : r0.is_primary_or_unique = r0x.is_primary_or_unique :=
          hflag r0 hr0mem r0x hr0xmem (hr0key.trans hr0xkey.symm)
        have hcolsPerm :
            ((rows1.filter (fun r => idxKey r = k)).map idxCol).Perm
              ((rows2.filter (fun r => idxKey r = k)).map idxCol) :=
          (hperm.filter _).map idxCol
        have hinj : ∀ a ∈ (rows1.filter (fun r => idxKey r = k)).map idxCol,
            ∀ b ∈ (rows1.filter (fun r => idxKey r = k)).map idxCol,
            a.seq_in_index = b.seq_in_index → a = b := by
          intro a ha b hb hab
          obtain ⟨ra, hra, rfl⟩ := List.mem_map.mp ha
          obtain ⟨rb, hrb, rfl⟩ := List.mem_map.mp hb
          have hKa : idxKey ra = k := by
            have := (List.mem_filter.mp hra).2
            simpa using this
          have hKb : idxKey rb = k := by
            have := (List.mem_filter.mp hrb).2
            simpa using this
          have heq : ra = rb := hseq ra (List.mem_filter.mp hra).1
            rb (List.mem_filter.mp hrb).1 (hKa.trans hKb.symm) hab
          rw [heq]
        have hsortEq :
            sortBySeq ((rows1.filter (fun r => idxKey r = k)).map idxCol) =
              sortBySeq ((rows2.filter (fun r => idxKey r = k)).map idxCol) :=
          sortBySeq_eq_of_perm _ _ hcolsPerm hinj
        simp only [Option.map_some']
        congr 1
        simp [sortDesc, hflagEq, hsortEq]
    have hperm2 : ((foldIndexes rows1).map (fun p => (p.1, sortDesc p.2))).Perm
        ((foldIndexes rows2).map (fun p => (p.1, sortDesc p.2))) := by
      apply alist_perm_of_lookup_eq _ _ ?_ ?_ hlook
      · rw [List.map_map]
        exact foldIndexes_keys_nodup rows1
      · rw [List.map_map]
        exact foldIndexes_keys_nodup rows2
    have hfinal := hperm2.map Prod.snd
    rw [List.map_map, List.map_map] at hfinal
    exact hfinal
  · intro k d hd
    rw [foldIndexes_lookup] at hd
    cases hf : rows1.find? (fun r => idxKey r = k) with
    | none =>
      rw [hf] at hd
      simp at hd
    | some r0 =>
      rw [hf] at hd
      simp only [Option.map_some', Option.some.injEq] at hd
      rw [← hd]

/-- Witness for the amended C4 at a concrete two-row index with distinct
sequence numbers, folded in both orders. -/
theorem index_fold_perm_invariant_witness :
    ((foldIndexes [idxSeqRow1, idxSeqRow2]).map (fun p => sortDesc p.2)).Perm
      ((foldIndexes [idxSeqRow2, idxSeqRow1]).map (fun p => sortDesc p.2)) ∧
    ∀ k d, alistLookup k (foldIndexes [idxSeqRow1, idxSeqRow2]) = some d →
      d.columns = ([idxSeqRow1, idxSeqRow2].filter
        (fun r => idxKey r = k)).map idxCol :=
  index_fold_perm_invariant [idxSeqRow1, idxSeqRow2] [idxSeqRow2, idxSeqRow1]
    (by decide) (by decide) (by decide)
